import Mathlib

/-!
Verification of the dht distributed key-value store (Go sources) against its
natural-language specification.

The Go code is shallowly embedded: in-memory maps become functions
`String → Option Entry`, wall-clock instants and durations become `Int`
(nanoseconds), HTTP responses become status numbers, and effectful calls
(disk sync, downstream HTTP requests) become explicit parameters describing
the environment's behaviour.  Each definition is translated from the named
Go source function; definitions written from the specification's words (for
refinement comparisons) say so in their doc comment.
-/

namespace DHT

/-! ## Storage node: internal/storage/storage.go -/

/-- `Entry` from storage.go: a value plus optional absolute expiry instant
(`ExpiresAt`), creation and update instants.  Instants are integer
nanoseconds. -/
structure Entry where
  Value : List Nat
  ExpiresAt : Option Int
  CreatedAt : Int
  UpdatedAt : Int
deriving DecidableEq

/-- The in-memory map `Storage.data` (Go `map[string]*Entry`). -/
abbrev StorageMap := String → Option Entry

/-- A fresh `Storage` (Go `NewStorage`) holds the empty map. -/
def StorageMap.empty : StorageMap := fun _ => none

/-- `Storage.Set` from storage.go: overwrites unconditionally; when `ttl > 0`
the entry expires at `now + ttl`, otherwise it never expires.  `now` is the
`time.Now()` observed inside `Set`.  The Go function always returns `nil`. -/
def StorageMap.Set (s : StorageMap) (key : String) (value : List Nat) (ttl : Int) (now : Int) :
    StorageMap :=
  let entry : Entry :=
    { Value := value
      ExpiresAt := if ttl > 0 then some (now + ttl) else none
      CreatedAt := now
      UpdatedAt := now }
  fun k => if k = key then some entry else s k

/-- `Storage.Get` from storage.go: `none` models both error returns
("key not found" and "key expired").  The expiry test is
`entry.ExpiresAt.Before(time.Now())`, i.e. strictly `ExpiresAt < now`. -/
def StorageMap.Get (s : StorageMap) (key : String) (now : Int) : Option (List Nat) :=
  match s key with
  | none => none
  | some entry =>
    match entry.ExpiresAt with
    | some e => if e < now then none else some entry.Value
    | none => some entry.Value

/-- `Storage.Delete` from storage.go: errors (`none`) when the key is absent;
note there is no expiry check — whatever entry the map holds is removed. -/
def StorageMap.Delete (s : StorageMap) (key : String) : Option StorageMap :=
  match s key with
  | none => none
  | some _ => some (fun k => if k = key then none else s k)

/-! ## WAL: internal/storage/wal.go -/

/-- `WALEntry` from wal.go.  `Operation` is the literal Go string
("SET" or "DELETE"), `TTL` a duration in nanoseconds, `Timestamp` the
instant `WAL.Append` observed via `time.Now()`. -/
structure WALEntry where
  Operation : String
  Key : String
  Value : List Nat
  TTL : Int
  Timestamp : Int
deriving DecidableEq

/-- One replay step of `WAL.Restore` from wal.go: a record with `TTL > 0`
whose `Timestamp + TTL` lies strictly before the recovery instant `now` is
skipped; otherwise "SET" is applied via `Storage.Set` (whose internal
`time.Now()` is the recovery instant, so the expiry is re-based) and
"DELETE" via `Storage.Delete` with the error discarded. -/
def restoreEntry (s : StorageMap) (e : WALEntry) (now : Int) : StorageMap :=
  if e.TTL > 0 ∧ e.Timestamp + e.TTL < now then s
  else if e.Operation = "SET" then s.Set e.Key e.Value e.TTL now
  else if e.Operation = "DELETE" then (s.Delete e.Key).getD s
  else s

/-- `WAL.Restore` from wal.go: replays the decodable records in file order
into a fresh `Storage`, at the single recovery instant `now`. -/
def Restore (wal : List WALEntry) (now : Int) : StorageMap :=
  wal.foldl (fun s e => restoreEntry s e now) StorageMap.empty

/-! ## Storage node HTTP handlers: cmd/dhtnode (src/unnamed/part_006) -/

/-- The state a DHT node accumulates: the in-memory map and the durably
appended WAL records. -/
structure DHTNodeState where
  storage : StorageMap
  wal : List WALEntry

/-- The TTL both `handlePut` (dhtnode) and `PutKey` (gateway) compute from the
`ttl` query parameter: absent (`""`) or unparseable strings leave the zero
duration.  `parseDuration` abstracts Go's `time.ParseDuration`
(`none` = parse error). -/
def effectiveTTL (parseDuration : String → Option Int) (ttlStr : String) : Int :=
  if ttlStr = "" then 0 else (parseDuration ttlStr).getD 0

/-- `handlePut` from cmd/dhtnode: empty key gives 400; the WAL append (encode
plus fsync, whose success the environment flag `walOk` models) happens before
the in-memory `Set`; an append failure gives 500 and leaves the state
untouched.  Returns (HTTP status, new node state). -/
def handlePut (parseDuration : String → Option Int) (key : String) (value : List Nat)
    (ttlStr : String) (now : Int) (walOk : Bool) (st : DHTNodeState) :
    Nat × DHTNodeState :=
  if key = "" then (400, st)
  else
    let ttl := effectiveTTL parseDuration ttlStr
    if walOk = false then (500, st)
    else
      (200, { storage := st.storage.Set key value ttl now
              wal := st.wal ++ [⟨"SET", key, value, ttl, now⟩] })

/-- `handleGet` from cmd/dhtnode: 404 whenever `Storage.Get` errors
(absent or expired key), otherwise 200 with the raw value. -/
def handleGet (key : String) (now : Int) (st : DHTNodeState) : Nat × Option (List Nat) :=
  if key = "" then (400, none)
  else
    match st.storage.Get key now with
    | none => (404, none)
    | some v => (200, some v)

/-- `handleDelete` from cmd/dhtnode: the WAL record (with zero TTL) is
appended before `Storage.Delete` runs, so even a 404 delete leaves a record;
an append failure gives 500 and leaves the state untouched. -/
def handleDelete (key : String) (now : Int) (walOk : Bool) (st : DHTNodeState) :
    Nat × DHTNodeState :=
  if key = "" then (400, st)
  else if walOk = false then (500, st)
  else
    let st' : DHTNodeState := { st with wal := st.wal ++ [⟨"DELETE", key, [], 0, now⟩] }
    match st'.storage.Delete key with
    | none => (404, st')
    | some d => (200, { st' with storage := d })

/-! ## Operation sequences and crash recovery (for the WAL durability claim) -/

/-- A client-visible mutation against one storage node, with the wall-clock
instant at which the node handles it. -/
inductive NodeOp where
  | put (key : String) (value : List Nat) (ttlStr : String) (t : Int)
  | del (key : String) (t : Int)

/-- Handle one operation (WAL appends succeed: the crash happens later). -/
def runOp (parseDuration : String → Option Int) (st : DHTNodeState) :
    NodeOp → Nat × DHTNodeState
  | .put k v ts t => handlePut parseDuration k v ts t true st
  | .del k t => handleDelete k t true st

/-- Handle a sequence of operations. -/
def runOps (parseDuration : String → Option Int) (ops : List NodeOp) (st : DHTNodeState) :
    DHTNodeState :=
  ops.foldl (fun s op => (runOp parseDuration s op).2) st

/-- Whether every operation in the sequence returned success (status 200). -/
def opsSucceed (parseDuration : String → Option Int) : List NodeOp → DHTNodeState → Bool
  | [], _ => true
  | op :: rest, st =>
    (runOp parseDuration st op).1 = 200 && opsSucceed parseDuration rest (runOp parseDuration st op).2

/-- The WAL record each successful operation appends. -/
def recordOf (parseDuration : String → Option Int) : NodeOp → WALEntry
  | .put k v ts t => ⟨"SET", k, v, effectiveTTL parseDuration ts, t⟩
  | .del k t => ⟨"DELETE", k, [], 0, t⟩

/-- Modelled from the spec's words (for refinement comparison only): replay
the operation sequence at its original timestamps via `Storage.Set` /
`Storage.Delete`. -/
def replayOps (parseDuration : String → Option Int) : List NodeOp → StorageMap → StorageMap
  | [], s => s
  | .put k v ts t :: rest, s =>
      replayOps parseDuration rest (s.Set k v (effectiveTTL parseDuration ts) t)
  | .del k t :: rest, s => replayOps parseDuration rest ((s.Delete k).getD s)

/-- Modelled from the spec's words (for refinement comparison only): drop the
entries whose expiry lies strictly before the recovery wall-clock `now`. -/
def filterExpired (s : StorageMap) (now : Int) : StorageMap :=
  fun k =>
    match s k with
    | none => none
    | some e =>
      match e.ExpiresAt with
      | some exp => if exp < now then none else some e
      | none => some e

/-- Modelled from the spec's words (for refinement comparison only): the
recovered state the durability claim predicts — replay the operations at
their original times, then filter out entries expired at recovery time. -/
def specRecoveredState (parseDuration : String → Option Int) (ops : List NodeOp) (now : Int) :
    StorageMap :=
  filterExpired (replayOps parseDuration ops StorageMap.empty) now

/-- What recovery actually computes, phrased over the operation sequence:
operations already expired at the recovery wall-clock are skipped entirely,
and surviving SETs are re-applied at the recovery instant `now` (so a TTL
entry's expiry is re-based to `now + ttl`). -/
def replaySkipRebase (parseDuration : String → Option Int) (now : Int) :
    List NodeOp → StorageMap → StorageMap
  | [], s => s
  | .put k v ts t :: rest, s =>
      if effectiveTTL parseDuration ts > 0 ∧ t + effectiveTTL parseDuration ts < now then
        replaySkipRebase parseDuration now rest s
      else replaySkipRebase parseDuration now rest (s.Set k v (effectiveTTL parseDuration ts) now)
  | .del k t :: rest, s => replaySkipRebase parseDuration now rest ((s.Delete k).getD s)

/-- Concrete `time.ParseDuration` fragment used by the concrete test inputs
below ("5ns" and "100ns" parse; everything else fails). -/
def pdTest : String → Option Int :=
  fun s => if s = "5ns" then some 5 else if s = "100ns" then some 100 else none

/-- Concrete operation sequence used by the recovery counterexample:
an untimed overwrite shadowed by a short-TTL overwrite, plus an independent
long-TTL write. -/
def opsTest : List NodeOp :=
  [.put "k" [1] "" 0, .put "k" [2] "5ns" 1, .put "j" [3] "100ns" 0]

/-- Concrete operation sequence (including a successful delete) used by the
recovery witness. -/
def opsDelTest : List NodeOp :=
  [.put "k" [1] "" 0, .put "m" [4] "" 0, .del "k" 1]

/-! ## Token bucket: cmd/gateway/ratelimiter.go -/

/-- `TokenBucket` from ratelimiter.go.  Go's `float64` fields are modelled as
exact rationals; instants are rational seconds. -/
structure TokenBucket where
  tokens : ℚ
  maxTokens : ℚ
  refillRate : ℚ
  lastRefill : ℚ
deriving DecidableEq

/-- `NewTokenBucket` from ratelimiter.go: the bucket starts full, with
`lastRefill` the current instant. -/
def NewTokenBucket (maxTokens refillRate now : ℚ) : TokenBucket :=
  { tokens := maxTokens, maxTokens := maxTokens, refillRate := refillRate, lastRefill := now }

/-- The refill step at the top of `AllowRequest`: add `elapsed × refillRate`
to the balance, then cap at `maxTokens`. -/
def TokenBucket.refilled (tb : TokenBucket) (now : ℚ) : ℚ :=
  if tb.tokens + (now - tb.lastRefill) * tb.refillRate > tb.maxTokens then tb.maxTokens
  else tb.tokens + (now - tb.lastRefill) * tb.refillRate

/-- `AllowRequest` from ratelimiter.go: refill first, then consume one token
exactly when at least one is available after the refill. -/
def TokenBucket.AllowRequest (tb : TokenBucket) (now : ℚ) : Bool × TokenBucket :=
  if tb.refilled now ≥ 1 then
    (true, { tb with tokens := tb.refilled now - 1, lastRefill := now })
  else
    (false, { tb with tokens := tb.refilled now, lastRefill := now })

/-- The claimed bucket invariant: `0 ≤ tokens ≤ capacity`. -/
def TokenBucket.Invariant (tb : TokenBucket) : Prop :=
  0 ≤ tb.tokens ∧ tb.tokens ≤ tb.maxTokens

/-! ## Replication coordinator: cmd/replicator/replicator.go -/

/-- The outcome the environment produces for one HTTP call to a replica:
a transport error, or a response with the given status code. -/
inductive ReplicaOutcome where
  | transportError
  | response (status : Nat)
deriving DecidableEq

/-- `replicateToNode` from replicator.go: true (ack) iff the call reached the
replica and came back with a 2xx status; transport errors and every non-2xx
status — 4xx included — are failures. -/
def replicateToNode : ReplicaOutcome → Bool
  | .transportError => false
  | .response c => decide (200 ≤ c) && decide (c < 300)

/-- The retry-relevant fields of `ReplicationTask` from replicator.go. -/
structure ReplicationTask where
  Retries : Nat
  MaxRetries : Nat
deriving DecidableEq

/-- `handleEventualReplication` enqueues a fresh task with `MaxRetries = 3`. -/
def newTask : ReplicationTask := ⟨0, 3⟩

/-- `processEventualTask` from replicator.go: fan out to each replica (the
per-replica outcomes are given by the environment), count the successes, and
re-enqueue the task with `Retries + 1` — `some task'` — exactly when not all
replicas succeeded and retries remain; otherwise the task is done or dropped
(`none`). -/
def processEventualTask (task : ReplicationTask) (outcomes : List ReplicaOutcome) :
    Option ReplicationTask :=
  if (outcomes.map replicateToNode).count true < outcomes.length ∧
      task.Retries < task.MaxRetries then
    some { task with Retries := task.Retries + 1 }
  else none

/-- The quorum size `(totalNodes / 2) + 1` computed in
`handleStrongReplication` (Go integer division = floor). -/
def majorityRequired (totalNodes : Nat) : Nat := totalNodes / 2 + 1

/-- The receive loop of `handleStrongReplication`: `remaining` counts the
loop iterations left (`totalNodes` at the start), `acked` the 2xx acks so
far, and the list holds the per-replica results in arrival order (a shorter
list means the missing calls never completed before the deadline, firing
`ctx.Done` → 408).  Returns (status, number of results consumed from this
point).  200 is returned the moment `acked` reaches the majority; if all
`totalNodes` iterations complete without quorum the fall-through answers
500. -/
def strongLoop (majority : Nat) : Nat → Nat → List Bool → Nat × Nat
  | 0, _, _ => (500, 0)
  | _ + 1, _, [] => (408, 0)
  | remaining + 1, acked, r :: rest =>
    if r then
      if majority ≤ acked + 1 then (200, 1)
      else
        ((strongLoop majority remaining (acked + 1) rest).1,
         (strongLoop majority remaining (acked + 1) rest).2 + 1)
    else
      ((strongLoop majority remaining acked rest).1,
       (strongLoop majority remaining acked rest).2 + 1)

/-- `handleStrongReplication` from replicator.go reduced to its response
status: fan out to all `replicaNodes` and run the receive loop. -/
def handleStrongReplication (replicaNodes : List String) (arrivals : List Bool) : Nat × Nat :=
  strongLoop (majorityRequired replicaNodes.length) replicaNodes.length 0 arrivals

/-! ## Gateway: cmd/gateway/handler.go -/

/-- The outcome of one downstream HTTP call made by the gateway. -/
inductive Downstream where
  | response (status : Nat)
  | transportError
deriving DecidableEq

/-- What the gateway's PUT/DELETE handlers produce: the client-visible
status, the effective TTL used downstream (forwarded to the primary and put
in the replication descriptor), and whether a replication descriptor was
dispatched to the coordinator. -/
structure GatewayResult where
  status : Nat
  ttl : Int
  dispatched : Bool
deriving DecidableEq

/-- `PutKey` from cmd/gateway/handler.go.  `nodes` is what
`h.ring.LocateKey(key, 3)` returned (head = primary, tail = replicas),
`primary` the primary node's response to the forwarded PUT, `coordinator`
the coordinator's response to `POST /replicate`.  `triggerReplication`
waits for `coordinator` in strong mode but returns nothing and only logs a
non-200 status, so the client status cannot depend on it. -/
def PutKey (parseDuration : String → Option Int) (key : String) (value : List Nat)
    (consistencyHdr : String) (ttlStr : String) (nodes : List String)
    (primary : Downstream) (coordinator : Downstream) : GatewayResult :=
  if key = "" then ⟨400, 0, false⟩
  else
    let consistency := if consistencyHdr = "" then "eventual" else consistencyHdr
    if consistency ≠ "strong" ∧ consistency ≠ "eventual" then ⟨400, 0, false⟩
    else if nodes.isEmpty then ⟨503, effectiveTTL parseDuration ttlStr, false⟩
    else
      match primary with
      | .transportError => ⟨503, effectiveTTL parseDuration ttlStr, false⟩
      | .response s =>
        if s ≠ 200 then ⟨s, effectiveTTL parseDuration ttlStr, false⟩
        else if nodes.tail.isEmpty then ⟨200, effectiveTTL parseDuration ttlStr, false⟩
        else ⟨200, effectiveTTL parseDuration ttlStr, true⟩

/-- `DeleteKey` from cmd/gateway/handler.go: like PUT without body or TTL; a
primary 404 is treated like success (replication is still triggered and the
client still gets 200). -/
def DeleteKey (key : String) (consistencyHdr : String) (nodes : List String)
    (primary : Downstream) (coordinator : Downstream) : GatewayResult :=
  if key = "" then ⟨400, 0, false⟩
  else
    let consistency := if consistencyHdr = "" then "eventual" else consistencyHdr
    if consistency ≠ "strong" ∧ consistency ≠ "eventual" then ⟨400, 0, false⟩
    else if nodes.isEmpty then ⟨503, 0, false⟩
    else
      match primary with
      | .transportError => ⟨503, 0, false⟩
      | .response s =>
        if s ≠ 200 ∧ s ≠ 404 then ⟨s, 0, false⟩
        else if nodes.tail.isEmpty then ⟨200, 0, false⟩
        else ⟨200, 0, true⟩

/-! ## Consistent hash ring: internal/hashring (src/unnamed/part_010) -/

/-- The FNV-1a 64-bit offset basis (Go `hash/fnv`). -/
def fnvOffset : Nat := 14695981039346656037

/-- The FNV-1a 64-bit prime (Go `hash/fnv`). -/
def fnvPrime : Nat := 1099511628211

/-- FNV-1a 64-bit hash of a byte string (the ring's `hash` method uses
`fnv.New64a`), with the 64-bit wrap-around made explicit. -/
def fnv1a (bytes : List Nat) : Nat :=
  bytes.foldl (fun h b => ((h ^^^ b) * fnvPrime) % 2 ^ 64) fnvOffset

/-- UTF-8 encoding of code point `c` (Go `string(rune(i))`).  The ring only
uses `c < 150`, so one- and two-byte forms matter; longer forms are included
for totality. -/
def runeUTF8 (c : Nat) : List Nat :=
  if c < 128 then [c]
  else if c < 2048 then [192 + c / 64, 128 + c % 64]
  else if c < 65536 then [224 + c / 4096, 128 + c / 64 % 64, 128 + c % 64]
  else [240 + c / 262144, 128 + c / 4096 % 64, 128 + c / 64 % 64, 128 + c % 64]

/-- The virtual key `node + ":" + string(rune(i))` as bytes (node names are
byte strings; 58 is the colon). -/
def virtualKey (node : List Nat) (i : Nat) : List Nat :=
  node ++ [58] ++ runeUTF8 i

/-- 150 virtual points per physical node. -/
def virtualReplicas : Nat := 150

/-- Default fanout substituted by `LocateKey` when `n ≤ 0`. -/
def replicationN : Nat := 3

/-- `HashRing` from internal/hashring: physical nodes, the hash → node map
(an association list whose most recent insertion wins, matching Go map
overwrite), and the hash slice, sorted by the constructor. -/
structure HashRing where
  nodes : List (List Nat)
  virtualNodes : List (Nat × List Nat)
  sortedHashes : List Nat

/-- The per-node inner loop of `addNodes`: insert the node's 150 virtual
points into the map and the hash slice. -/
def addNodeVirtuals (r : HashRing) (node : List Nat) : HashRing :=
  (List.range virtualReplicas).foldl
    (fun r i =>
      { r with
        virtualNodes := (fnv1a (virtualKey node i), node) :: r.virtualNodes
        sortedHashes := r.sortedHashes ++ [fnv1a (virtualKey node i)] })
    r

/-- `NewHashRing` from internal/hashring: add every node's virtual points,
then sort the hash slice ascending. -/
def NewHashRing (nodes : List (List Nat)) : HashRing :=
  let r := nodes.foldl addNodeVirtuals ⟨nodes, [], []⟩
  { r with sortedHashes := r.sortedHashes.insertionSort (· ≤ ·) }

/-- The collection loop of `LocateKey`: walk the hash sequence, appending
each hash's physical node when not yet collected, until the bound is
reached.  A Go map lookup of a missing hash yields the zero string (`[]`
here). -/
def collectNodes (vn : List (Nat × List Nat)) (bound : Nat) :
    List Nat → List (List Nat) → List (List Nat)
  | [], acc => acc
  | h :: rest, acc =>
    if bound ≤ acc.length then acc
    else if (vn.lookup h).getD [] ∈ acc then collectNodes vn bound rest acc
    else collectNodes vn bound rest (acc ++ [(vn.lookup h).getD []])

/-- `LocateKey` from internal/hashring.  The Go `for` loop starts at the
binary-search index (the first sorted hash `≥ hash(key)`, which on a sorted
slice is exactly `findIdx`) and walks the indices with wrap-around — i.e. it
scans the rotation of `sortedHashes` starting there, and keeps spinning
forever if a full cycle cannot fill the bound `min(n, |nodes|)`; `none`
models that divergence. -/
def LocateKey (r : HashRing) (key : List Nat) (n : Nat) : Option (List (List Nat)) :=
  if r.sortedHashes = [] then some []
  else
    let bound := min (if n ≤ 0 then replicationN else n) r.nodes.length
    let idx := r.sortedHashes.findIdx fun h => decide (fnv1a key ≤ h)
    let result := collectNodes r.virtualNodes bound
      (r.sortedHashes.drop idx ++ r.sortedHashes.take idx) []
    if result.length = bound then some result else none

/-- `GetNode` from internal/hashring: the first located node, or the zero
string on an empty ring. -/
def GetNode (r : HashRing) (key : List Nat) : List Nat :=
  match LocateKey r key 1 with
  | some (nd :: _) => nd
  | _ => []

/-! ## Theorems -/

/-- Every successful operation appends exactly its WAL record, in order. -/
theorem runOps_wal (pd : String → Option Int) (ops : List NodeOp) :
    ∀ st : DHTNodeState, opsSucceed pd ops st = true →
      (runOps pd ops st).wal = st.wal ++ ops.map (recordOf pd) := by
  induction ops with
  | nil => intro st _; simp [runOps]
  | cons op rest ih =>
    intro st h
    rw [opsSucceed, Bool.and_eq_true, decide_eq_true_eq] at h
    obtain ⟨h200, hrest⟩ := h
    have hstep : (runOp pd st op).2.wal = st.wal ++ [recordOf pd op] := by
      cases op with
      | put k v ts t =>
        by_cases hk : k = ""
        · rw [runOp, handlePut, if_pos hk] at h200; simp at h200
        · simp [runOp, handlePut, hk, recordOf]
      | del k t =>
        by_cases hk : k = ""
        · rw [runOp, handleDelete, if_pos hk] at h200; simp at h200
        · rw [runOp, handleDelete, if_neg hk]
          simp only [Bool.false_eq_true, if_false]
          cases hdel : ((st.wal ++ [(⟨"DELETE", k, [], 0, t⟩ : WALEntry)],
              st.storage).2.Delete k) <;> simp [hdel, recordOf]
    have : runOps pd (op :: rest) st = runOps pd rest (runOp pd st op).2 := by
      simp [runOps]
    rw [this, ih _ hrest, hstep, List.append_assoc]
    simp

/-- Replaying the WAL records generated by an operation sequence is the same
as replaying the operations themselves with expired ones skipped and
surviving SETs applied at the recovery instant. -/
theorem restore_records (pd : String → Option Int) (now : Int) (ops : List NodeOp) :
    ∀ s : StorageMap,
      (ops.map (recordOf pd)).foldl (fun s e => restoreEntry s e now) s
        = replaySkipRebase pd now ops s := by
  induction ops with
  | nil => intro s; rfl
  | cons op rest ih =>
    intro s
    cases op with
    | put k v ts t =>
      rw [List.map_cons, List.foldl_cons, recordOf, replaySkipRebase]
      have hhead : restoreEntry s ⟨"SET", k, v, effectiveTTL pd ts, t⟩ now =
          if effectiveTTL pd ts > 0 ∧ t + effectiveTTL pd ts < now then s
          else s.Set k v (effectiveTTL pd ts) now := by
        by_cases hc : effectiveTTL pd ts > 0 ∧ t + effectiveTTL pd ts < now
        · simp [restoreEntry, hc]
        · simp [restoreEntry, hc]
      rw [hhead]
      by_cases hc : effectiveTTL pd ts > 0 ∧ t + effectiveTTL pd ts < now
      · rw [if_pos hc, if_pos hc]; exact ih s
      · rw [if_neg hc, if_neg hc]; exact ih _
    | del k t =>
      rw [List.map_cons, List.foldl_cons, recordOf, replaySkipRebase]
      have hhead : restoreEntry s ⟨"DELETE", k, [], 0, t⟩ now = (s.Delete k).getD s := by
        simp [restoreEntry, show ¬((0 : Int) > 0 ∧ t + 0 < now) by omega]
      rw [hhead]; exact ih _

/-- Claim C2 counterexample: run `opsTest` (all three PUTs succeed), crash,
and recover at wall-clock 10.  The recovered state maps "k" to the stale
value [1] written by the first, shadowed, untimed PUT (the later short-TTL
overwrite was skipped during replay), while the claimed replay-then-filter
state has no "k" at all; and the surviving "j" entry's expiry is re-based to
recovery-time 10 + TTL 100 = 110, not the claimed original 0 + 100 = 100. -/
theorem wal_recovery_counterexample :
    opsSucceed pdTest opsTest ⟨StorageMap.empty, []⟩ = true ∧
    Restore ((runOps pdTest opsTest ⟨StorageMap.empty, []⟩).wal) 10 "k"
      = some ⟨[1], none, 10, 10⟩ ∧
    specRecoveredState pdTest opsTest 10 "k" = none ∧
    Restore ((runOps pdTest opsTest ⟨StorageMap.empty, []⟩).wal) 10 "j"
      = some ⟨[3], some 110, 10, 10⟩ ∧
    specRecoveredState pdTest opsTest 10 "j" = some ⟨[3], some 100, 0, 0⟩ := by
  decide

/-- Claim C2 (corrected): after any sequence of successful Set/Delete
operations, a crash, and WAL recovery at wall-clock `now`, the in-memory
state equals the state obtained by replaying the operation sequence with
operations whose TTL had elapsed strictly before `now` skipped entirely
(not applied-then-filtered), each surviving SET re-applied at the recovery
instant — so a surviving entry's expiry equals `now + ttl`, re-based rather
than original-timestamp + ttl. -/
theorem wal_recovery (pd : String → Option Int) (ops : List NodeOp) (now : Int)
    (h : opsSucceed pd ops ⟨StorageMap.empty, []⟩ = true) :
    Restore ((runOps pd ops ⟨StorageMap.empty, []⟩).wal) now
      = replaySkipRebase pd now ops StorageMap.empty := by
  rw [Restore, runOps_wal pd ops _ h]
  rw [show (⟨StorageMap.empty, []⟩ : DHTNodeState).wal = [] from rfl, List.nil_append]
  exact restore_records pd now ops StorageMap.empty

/-- Witness for C2's corrected claim on a concrete run with a successful
delete: recovery at wall-clock 10 reproduces the skip-and-rebase replay. -/
theorem wal_recovery_witness :
    Restore ((runOps pdTest opsDelTest ⟨StorageMap.empty, []⟩).wal) 10
      = replaySkipRebase pdTest 10 opsDelTest StorageMap.empty :=
  wal_recovery pdTest opsDelTest 10 (by decide)

/-- Claim C3 (confirmed): on either mutation handler a WAL append failure
(`walOk = false`) returns an error — 500 whenever the request got as far as
the append, i.e. the key was non-empty — and leaves the node state untouched;
conversely the in-memory map changes only when the append succeeded, in which
case the corresponding record was durably appended to the WAL first. -/
theorem wal_write_ahead (pd : String → Option Int) (key : String) (value : List Nat)
    (ttlStr : String) (now : Int) (walOk : Bool) (st : DHTNodeState) :
    (walOk = false →
      (handlePut pd key value ttlStr now walOk st).2 = st ∧
      (handleDelete key now walOk st).2 = st ∧
      (key ≠ "" →
        (handlePut pd key value ttlStr now walOk st).1 = 500 ∧
        (handleDelete key now walOk st).1 = 500)) ∧
    ((handlePut pd key value ttlStr now walOk st).2.storage ≠ st.storage →
      walOk = true ∧
      (handlePut pd key value ttlStr now walOk st).2.wal =
        st.wal ++ [⟨"SET", key, value, effectiveTTL pd ttlStr, now⟩]) ∧
    ((handleDelete key now walOk st).2.storage ≠ st.storage →
      walOk = true ∧
      (handleDelete key now walOk st).2.wal = st.wal ++ [⟨"DELETE", key, [], 0, now⟩]) := by
  unfold handlePut handleDelete
  by_cases hk : key = "" <;> cases walOk <;>
    simp [hk] <;>
    cases hdel : (st.storage.Delete key) <;>
    simp [hdel]

/-- Witness for C3 at a concrete input: a failing WAL append on a non-empty
key returns 500 from both handlers and leaves the state unchanged. -/
theorem wal_write_ahead_witness :
    (handlePut pdTest "k" [1] "" 0 false ⟨StorageMap.empty, []⟩).2 = ⟨StorageMap.empty, []⟩ ∧
    (handlePut pdTest "k" [1] "" 0 false ⟨StorageMap.empty, []⟩).1 = 500 ∧
    (handleDelete "k" 0 false ⟨StorageMap.empty, []⟩).1 = 500 := by
  have h := wal_write_ahead pdTest "k" [1] "" 0 false ⟨StorageMap.empty, []⟩
  exact ⟨(h.1 rfl).1, ((h.1 rfl).2.2 (by decide)).1, ((h.1 rfl).2.2 (by decide)).2⟩

/-- Claim C6 counterexample: a key written at time 0 with TTL 5 has
`ExpiresAt = 5`, yet a `Get` at exactly `now = 5` — the instant
`t = expires_at` the claim says must read as absent — still returns the
value, because storage.go tests `ExpiresAt.Before(now)` strictly. -/
theorem get_at_exact_expiry_returns_value :
    (StorageMap.empty.Set "k" [1] 5 0) "k" = some ⟨[1], some 5, 0, 0⟩ ∧
    (StorageMap.empty.Set "k" [1] 5 0).Get "k" 5 = some [1] := by
  decide

/-- Claim C6 (corrected): an entry written at `t` with TTL `ttl > 0` is
invisible to `Get` exactly when `now` is strictly after its expiry
`t + ttl`, and still visible at every `now ≤ t + ttl` — including the exact
expiry instant. -/
theorem get_ttl_visibility (s : StorageMap) (key : String) (v : List Nat) (ttl t now : Int)
    (h : 0 < ttl) :
    (s.Set key v ttl t).Get key now = if now ≤ t + ttl then some v else none := by
  unfold StorageMap.Set StorageMap.Get
  simp only [if_pos rfl, show ttl > 0 from h, if_pos]
  by_cases hc : now ≤ t + ttl
  · rw [if_neg (by omega), if_pos hc]
  · rw [if_pos (by omega), if_neg hc]

/-- Witness for C6's corrected claim: written at 10 with TTL 3, the value is
still returned at the exact expiry instant 13 and gone at 14. -/
theorem get_ttl_visibility_witness :
    (StorageMap.empty.Set "a" [2] 3 10).Get "a" 13 = some [2] ∧
    (StorageMap.empty.Set "a" [2] 3 10).Get "a" 14 = none := by
  have h13 := get_ttl_visibility StorageMap.empty "a" [2] 3 10 13 (by decide)
  have h14 := get_ttl_visibility StorageMap.empty "a" [2] 3 10 14 (by decide)
  refine ⟨?_, ?_⟩
  · simpa using h13
  · simpa using h14

/-- Claim C10 counterexample: at `now = expires_at` exactly (entry written at
0 with TTL 5, read at 5) the claim's premise `now ≥ expires_at` holds, but
GET returns 200 with the value rather than the claimed not-found. -/
theorem get_delete_at_exact_expiry :
    (handleGet "k" 5 ⟨StorageMap.empty.Set "k" [1] 5 0, []⟩).1 = 200 ∧
    (handleGet "k" 5 ⟨StorageMap.empty.Set "k" [1] 5 0, []⟩).2 = some [1] := by
  decide

/-- Claim C10 (corrected): for an entry still present in the map but strictly
expired (`expires_at < now`), GET returns 404 while DELETE succeeds with 200
and removes the entry — the delete path never checks expiry. -/
theorem expired_entry_get_delete (st : DHTNodeState) (key : String) (e : Entry)
    (exp now : Int) (hk : key ≠ "") (hpres : st.storage key = some e)
    (hexp : e.ExpiresAt = some exp) (hnow : exp < now) :
    (handleGet key now st).1 = 404 ∧
    (handleDelete key now true st).1 = 200 ∧
    (handleDelete key now true st).2.storage key = none := by
  unfold handleGet handleDelete StorageMap.Get StorageMap.Delete
  simp [hk, hpres, hexp, if_pos hnow]

/-- Witness for C10's corrected claim: key written at 0 with TTL 5, handled
at `now = 6`: GET gives 404, DELETE gives 200 and removes the entry. -/
theorem expired_entry_get_delete_witness :
    (handleGet "k" 6 ⟨StorageMap.empty.Set "k" [1] 5 0, []⟩).1 = 404 ∧
    (handleDelete "k" 6 true ⟨StorageMap.empty.Set "k" [1] 5 0, []⟩).1 = 200 ∧
    (handleDelete "k" 6 true ⟨StorageMap.empty.Set "k" [1] 5 0, []⟩).2.storage "k" = none :=
  expired_entry_get_delete ⟨StorageMap.empty.Set "k" [1] 5 0, []⟩ "k"
    ⟨[1], some 5, 0, 0⟩ 5 6 (by decide) (by decide) (by decide) (by decide)

/-- The refilled balance stays within `[0, maxTokens]` whenever the bucket
was within bounds, the refill rate is non-negative, and the clock did not go
backwards. -/
theorem refilled_bounds (tb : TokenBucket) (now : ℚ) (hrate : 0 ≤ tb.refillRate)
    (hmono : tb.lastRefill ≤ now) (hinv : tb.Invariant) :
    0 ≤ tb.refilled now ∧ tb.refilled now ≤ tb.maxTokens := by
  obtain ⟨h0, hm⟩ := hinv
  have hadd : 0 ≤ (now - tb.lastRefill) * tb.refillRate :=
    mul_nonneg (by linarith) hrate
  unfold TokenBucket.refilled
  split_ifs with hcap
  · constructor <;> linarith
  · constructor <;> linarith

/-- Claim C9 (confirmed): `0 ≤ tokens ≤ capacity` holds for a fresh bucket
(given non-negative capacity) and is preserved by every `AllowRequest`
(given a non-negative refill rate and a non-decreasing clock); each check
refills first, capping at capacity, and consumes one token exactly when the
refilled balance is at least 1. -/
theorem token_bucket_invariant (cap rate t0 : ℚ) (tb : TokenBucket) (now : ℚ)
    (hcap : 0 ≤ cap) (hrate : 0 ≤ tb.refillRate) (hmono : tb.lastRefill ≤ now)
    (hinv : tb.Invariant) :
    (NewTokenBucket cap rate t0).Invariant ∧
    (tb.AllowRequest now).2.Invariant ∧
    ((tb.AllowRequest now).1 = true ↔ 1 ≤ tb.refilled now) ∧
    ((tb.AllowRequest now).1 = true →
      (tb.AllowRequest now).2.tokens = tb.refilled now - 1) ∧
    ((tb.AllowRequest now).1 = false →
      (tb.AllowRequest now).2.tokens = tb.refilled now) := by
  obtain ⟨hr0, hrm⟩ := refilled_bounds tb now hrate hmono hinv
  unfold TokenBucket.AllowRequest TokenBucket.Invariant
  split_ifs with h1 <;> dsimp only
  · refine ⟨⟨hcap, le_refl _⟩, ⟨by linarith, by linarith⟩, ?_, ?_, ?_⟩
    · exact ⟨(fun _ => h1), (fun _ => rfl)⟩
    · exact fun _ => rfl
    · exact fun hf => nomatch hf
  · refine ⟨⟨hcap, le_refl _⟩, ⟨hr0, hrm⟩, ?_, ?_, ?_⟩
    · exact ⟨(fun hf => nomatch hf), (fun hle => absurd hle h1)⟩
    · exact fun hf => nomatch hf
    · exact fun _ => rfl

/-- Witness for C9 at a concrete input: a bucket of capacity 10 and refill
rate 2 per second admits a request one second after creation and stays
within bounds. -/
theorem token_bucket_invariant_witness :
    ((NewTokenBucket 10 2 0).AllowRequest 1).2.Invariant ∧
    ((NewTokenBucket 10 2 0).AllowRequest 1).1 = true := by
  have h := token_bucket_invariant 10 2 0 (NewTokenBucket 10 2 0) 1
    (by norm_num) (by norm_num [NewTokenBucket]) (by norm_num [NewTokenBucket])
    ⟨by norm_num [NewTokenBucket], by norm_num [NewTokenBucket]⟩
  refine ⟨h.2.1, h.2.2.1.mpr ?_⟩
  norm_num [NewTokenBucket, TokenBucket.refilled]

/-- Claim C7 counterexample: a replica answering 400 (a 4xx) to a fresh
eventual task with one replica makes `processEventualTask` re-enqueue the
task with `Retries = 1` — the claim says a 4xx must not cause re-enqueueing. -/
theorem retry_on_4xx_counterexample :
    processEventualTask newTask [.response 400] = some ⟨1, 3⟩ := by
  decide

/-- Not every replica acked iff some replica failed. -/
theorem count_lt_iff_any_failure (outcomes : List ReplicaOutcome) :
    (outcomes.map replicateToNode).count true < outcomes.length ↔
      (outcomes.any fun o => !replicateToNode o) = true := by
  induction outcomes with
  | nil => simp
  | cons o rest ih =>
    have hle := List.count_le_length true (rest.map replicateToNode)
    rw [List.length_map] at hle
    cases hf : replicateToNode o
    · simpa [List.count_cons, hf, Nat.lt_succ_iff] using hle
    · simpa [List.count_cons, hf] using ih

/-- Claim C7 (corrected): in eventual mode every kind of replica failure —
transport error or any non-2xx status, 4xx included — is retried alike: the
task (created with `MaxRetries = 3`) is re-enqueued exactly when some replica
failed and `Retries < MaxRetries`. -/
theorem eventual_retry_classification (task : ReplicationTask)
    (outcomes : List ReplicaOutcome) :
    newTask.MaxRetries = 3 ∧
    ((processEventualTask task outcomes).isSome = true ↔
      ((outcomes.any fun o => !replicateToNode o) = true ∧
        task.Retries < task.MaxRetries)) := by
  refine ⟨rfl, ?_⟩
  unfold processEventualTask
  rw [← count_lt_iff_any_failure]
  split_ifs with h
  · simpa using h
  · simpa using h

/-- Unfolding `strongLoop` on an ack that completes the quorum. -/
theorem strongLoop_cons_hit (majority rem acked : Nat) (rest : List Bool)
    (h : majority ≤ acked + 1) :
    strongLoop majority (rem + 1) acked (true :: rest) = (200, 1) := by
  simp [strongLoop, h]

/-- Unfolding `strongLoop` on an ack below the quorum. -/
theorem strongLoop_cons_ack (majority rem acked : Nat) (rest : List Bool)
    (h : ¬majority ≤ acked + 1) :
    strongLoop majority (rem + 1) acked (true :: rest)
      = ((strongLoop majority rem (acked + 1) rest).1,
         (strongLoop majority rem (acked + 1) rest).2 + 1) := by
  simp [strongLoop, h]

/-- Unfolding `strongLoop` on a failed replica call. -/
theorem strongLoop_cons_fail (majority rem acked : Nat) (rest : List Bool) :
    strongLoop majority (rem + 1) acked (false :: rest)
      = ((strongLoop majority rem acked rest).1,
         (strongLoop majority rem acked rest).2 + 1) := by
  simp [strongLoop]

/-- The strong-mode receive loop returns 200 iff the acks it can still
consume reach the majority. -/
theorem strongLoop_200_iff (majority : Nat) (arrivals : List Bool) :
    ∀ remaining acked, arrivals.length ≤ remaining → acked < majority →
      ((strongLoop majority remaining acked arrivals).1 = 200 ↔
        majority ≤ acked + arrivals.count true) := by
  induction arrivals with
  | nil =>
    intro remaining acked _ hack
    cases remaining with
    | zero => simp [strongLoop]; omega
    | succ rem => simp [strongLoop]; omega
  | cons r rest ih =>
    intro remaining acked hlen hack
    cases remaining with
    | zero => simp at hlen
    | succ rem =>
      simp only [List.length_cons, Nat.succ_le_succ_iff] at hlen
      cases r with
      | true =>
        by_cases hmaj : majority ≤ acked + 1
        · rw [strongLoop_cons_hit majority rem acked rest hmaj]
          simp only [List.count_cons]
          simp
          omega
        · rw [strongLoop_cons_ack majority rem acked rest hmaj]
          have := ih rem (acked + 1) hlen (by omega)
          simp only [List.count_cons] at this ⊢
          simp only [this]
          simp
          omega
      | false =>
        rw [strongLoop_cons_fail majority rem acked rest]
        have := ih rem acked hlen hack
        simp only [List.count_cons] at this ⊢
        simp only [this]
        simp

/-- When the strong-mode loop answers 200, it does so at the first arrival
whose ack brings the running count to exactly the majority. -/
theorem strongLoop_200_minimal (majority : Nat) (arrivals : List Bool) :
    ∀ remaining acked, arrivals.length ≤ remaining → acked < majority →
      (strongLoop majority remaining acked arrivals).1 = 200 →
      acked + (arrivals.take (strongLoop majority remaining acked arrivals).2).count true
          = majority ∧
      ∀ j < (strongLoop majority remaining acked arrivals).2,
        acked + (arrivals.take j).count true < majority := by
  induction arrivals with
  | nil =>
    intro remaining acked _ hack h200
    cases remaining with
    | zero => simp [strongLoop] at h200
    | succ rem => simp [strongLoop] at h200
  | cons r rest ih =>
    intro remaining acked hlen hack h200
    cases remaining with
    | zero => simp at hlen
    | succ rem =>
      simp only [List.length_cons, Nat.succ_le_succ_iff] at hlen
      cases r with
      | true =>
        by_cases hmaj : majority ≤ acked + 1
        · rw [strongLoop_cons_hit majority rem acked rest hmaj] at h200 ⊢
          refine ⟨?_, ?_⟩
          · simp [List.count_cons]
            omega
          · intro j hj
            interval_cases j
            simpa using hack
        · rw [strongLoop_cons_ack majority rem acked rest hmaj] at h200 ⊢
          obtain ⟨heq, hmin⟩ := ih rem (acked + 1) hlen (by omega) h200
          refine ⟨?_, ?_⟩
          · rw [List.take_succ_cons, List.count_cons]
            simp only [beq_self_eq_true, if_pos rfl] at heq ⊢
            simp
            omega
          · intro j hj
            cases j with
            | zero => simpa using hack
            | succ j' =>
              rw [List.take_succ_cons, List.count_cons]
              have := hmin j' (by simp at hj; omega)
              simp
              omega
      | false =>
        rw [strongLoop_cons_fail majority rem acked rest] at h200 ⊢
        obtain ⟨heq, hmin⟩ := ih rem acked hlen hack h200
        refine ⟨?_, ?_⟩
        · rw [List.take_succ_cons, List.count_cons]
          simpa using heq
        · intro j hj
          cases j with
          | zero => simpa using hack
          | succ j' =>
            rw [List.take_succ_cons, List.count_cons]
            have := hmin j' (by simp at hj; omega)
            simpa using this

/-- Claim C4 (confirmed): with `N` replicas, `handleStrongReplication`
answers 200 exactly when at least `⌊N/2⌋ + 1` replicas acked with 2xx (a
strict majority: `2(⌊N/2⌋+1) > N`), and the 200 is produced at the very
arrival whose ack completes that quorum — no earlier prefix of the arrival
order reaches it. -/
theorem strong_replication_quorum (replicaNodes : List String) (arrivals : List Bool)
    (hlen : arrivals.length ≤ replicaNodes.length) :
    ((handleStrongReplication replicaNodes arrivals).1 = 200 ↔
      majorityRequired replicaNodes.length ≤ arrivals.count true) ∧
    2 * majorityRequired replicaNodes.length > replicaNodes.length ∧
    ((handleStrongReplication replicaNodes arrivals).1 = 200 →
      (arrivals.take (handleStrongReplication replicaNodes arrivals).2).count true
          = majorityRequired replicaNodes.length ∧
      ∀ j < (handleStrongReplication replicaNodes arrivals).2,
        (arrivals.take j).count true < majorityRequired replicaNodes.length) := by
  have hpos : 0 < majorityRequired replicaNodes.length := Nat.succ_pos _
  refine ⟨?_, ?_, ?_⟩
  · have := strongLoop_200_iff (majorityRequired replicaNodes.length) arrivals
      replicaNodes.length 0 hlen hpos
    simpa [handleStrongReplication] using this
  · unfold majorityRequired
    omega
  · intro h200
    have := strongLoop_200_minimal (majorityRequired replicaNodes.length) arrivals
      replicaNodes.length 0 hlen hpos h200
    simpa [handleStrongReplication] using this

/-- Witness for C4 at a concrete input: 3 replicas, arrivals
fail, ack, ack — 200 is returned after consuming all three results, the
quorum count is exactly 2 = ⌊3/2⌋+1, and no shorter prefix reaches it. -/
theorem strong_replication_quorum_witness :
    ((handleStrongReplication ["A", "B", "C"] [false, true, true]).1 = 200 ↔
      majorityRequired 3 ≤ 2) ∧
    ((handleStrongReplication ["A", "B", "C"] [false, true, true]).1 = 200 →
      ([false, true, true].take
          (handleStrongReplication ["A", "B", "C"] [false, true, true]).2).count true
        = majorityRequired 3) := by
  have h := strong_replication_quorum ["A", "B", "C"] [false, true, true] (by decide)
  exact ⟨by simpa using h.1, fun h200 => (h.2.2 h200).1⟩

/-- Claim C1 (code bug): a strong-consistency PUT or DELETE whose primary
write succeeded and whose replica set is non-empty dispatches synchronously
to the coordinator and waits — but even when the coordinator answers 500
(quorum failed) or 408 (timeout), the gateway responds 200 with
`success: true`: `triggerReplication` has no return value and only logs the
non-200 status.  The last conjunct shows the client status is 200 for every
possible coordinator response. -/
theorem strong_put_swallows_coordinator_error :
    PutKey pdTest "k" [1] "strong" "" ["A", "B", "C"] (.response 200) (.response 500)
      = ⟨200, 0, true⟩ ∧
    DeleteKey "k" "strong" ["A", "B", "C"] (.response 200) (.response 408)
      = ⟨200, 0, true⟩ ∧
    ∀ coordinator : Downstream,
      PutKey pdTest "k" [1] "strong" "" ["A", "B", "C"] (.response 200) coordinator
        = ⟨200, 0, true⟩ := by
  exact ⟨by decide, by decide, fun _ => rfl⟩

/-- Claim C8 counterexample: a PUT whose `ttl` query parameter does not
parse ("bogus" fails under the concrete parser) is not rejected with 400:
the gateway proceeds and answers 200, and the storage node's handlePut
stores the value with the defaulted zero TTL (no expiry). -/
theorem bad_ttl_not_rejected :
    pdTest "bogus" = none ∧
    PutKey pdTest "k" [1] "eventual" "bogus" ["A"] (.response 200) (.response 200)
      = ⟨200, 0, false⟩ ∧
    (handlePut pdTest "k" [1] "bogus" 0 true ⟨StorageMap.empty, []⟩).1 = 200 ∧
    (handlePut pdTest "k" [1] "bogus" 0 true ⟨StorageMap.empty, []⟩).2.storage "k"
      = some ⟨[1], none, 0, 0⟩ := by
  decide

/-- Claim C8 (corrected): an unparseable `ttl` query parameter is silently
ignored — both the gateway's PutKey and the storage node's handlePut behave
exactly as if no `ttl` had been supplied (zero TTL, no expiry), rather than
failing the request with 400. -/
theorem bad_ttl_defaults (pd : String → Option Int) (key : String) (value : List Nat)
    (consistencyHdr ttlStr : String) (nodes : List String)
    (primary coordinator : Downstream) (now : Int) (walOk : Bool) (st : DHTNodeState)
    (hbad : pd ttlStr = none) :
    PutKey pd key value consistencyHdr ttlStr nodes primary coordinator
      = PutKey pd key value consistencyHdr "" nodes primary coordinator ∧
    handlePut pd key value ttlStr now walOk st = handlePut pd key value "" now walOk st := by
  have heff : effectiveTTL pd ttlStr = effectiveTTL pd "" := by
    unfold effectiveTTL
    by_cases hts : ttlStr = "" <;> simp [hts, hbad]
  constructor
  · unfold PutKey; rw [heff]
  · unfold handlePut; rw [heff]

/-- Witness for C8's corrected claim at a concrete input: with the
unparseable "bogus" TTL, PutKey and handlePut coincide with their
no-TTL runs. -/
theorem bad_ttl_defaults_witness :
    PutKey pdTest "k" [2] "eventual" "bogus" ["A", "B"] (.response 200) (.response 200)
      = PutKey pdTest "k" [2] "eventual" "" ["A", "B"] (.response 200) (.response 200) ∧
    handlePut pdTest "k" [2] "bogus" 7 true ⟨StorageMap.empty, []⟩
      = handlePut pdTest "k" [2] "" 7 true ⟨StorageMap.empty, []⟩ :=
  bad_ttl_defaults pdTest "k" [2] "eventual" "bogus" ["A", "B"]
    (.response 200) (.response 200) 7 true ⟨StorageMap.empty, []⟩ (by decide)

/-- `addNodeVirtuals` never touches the physical node list. -/
theorem addNodeVirtuals_nodes (r : HashRing) (node : List Nat) :
    (addNodeVirtuals r node).nodes = r.nodes := by
  unfold addNodeVirtuals
  generalize List.range virtualReplicas = l
  induction l generalizing r with
  | nil => rfl
  | cons i rest ih =>
    rw [List.foldl_cons]
    exact ih _

/-- `NewHashRing` keeps the given physical node list. -/
theorem newHashRing_nodes (nodes : List (List Nat)) :
    (NewHashRing nodes).nodes = nodes := by
  have hfold : ∀ (l : List (List Nat)) (r : HashRing),
      (l.foldl addNodeVirtuals r).nodes = r.nodes := by
    intro l
    induction l with
    | nil => intro r; rfl
    | cons nd rest ih =>
      intro r
      rw [List.foldl_cons, ih, addNodeVirtuals_nodes]
  unfold NewHashRing
  dsimp only
  rw [hfold]

/-- A rotation of a list has the same members. -/
theorem mem_rotation (l : List Nat) (i a : Nat) :
    a ∈ l.drop i ++ l.take i ↔ a ∈ l := by
  rw [List.mem_append, or_comm, ← List.mem_append, List.take_append_drop]

/-- The collection loop fills the bound with pairwise-distinct nodes as long
as the distinct values reachable through the remaining hashes, together with
what is already collected, cover the bound. -/
theorem collectNodes_spec (vn : List (Nat × List Nat)) (bound : Nat) :
    ∀ (hashes : List Nat) (acc : List (List Nat)),
      acc.Nodup → acc.length ≤ bound →
      bound ≤ (acc.toFinset ∪
        (hashes.map fun h => (vn.lookup h).getD []).toFinset).card →
      (collectNodes vn bound hashes acc).length = bound ∧
      (collectNodes vn bound hashes acc).Nodup := by
  intro hashes
  induction hashes with
  | nil =>
    intro acc hnd hle hcard
    rw [collectNodes]
    have hcd : (acc.toFinset ∪ (([] : List Nat).map
        fun h => (vn.lookup h).getD []).toFinset).card = acc.length := by
      simp [List.card_toFinset, List.dedup_eq_self.mpr hnd]
    rw [hcd] at hcard
    exact ⟨le_antisymm hle hcard, hnd⟩
  | cons h rest ih =>
    intro acc hnd hle hcard
    rw [collectNodes]
    by_cases hb : bound ≤ acc.length
    · rw [if_pos hb]
      exact ⟨le_antisymm hle hb, hnd⟩
    · rw [if_neg hb]
      by_cases hmem : (vn.lookup h).getD [] ∈ acc
      · rw [if_pos hmem]
        apply ih acc hnd hle
        have heq : acc.toFinset ∪
            (((h :: rest).map fun h => (vn.lookup h).getD []).toFinset)
            = acc.toFinset ∪ ((rest.map fun h => (vn.lookup h).getD []).toFinset) := by
          rw [List.map_cons, List.toFinset_cons, Finset.union_insert,
            Finset.insert_eq_self.mpr]
          exact Finset.mem_union_left _ (List.mem_toFinset.mpr hmem)
        rw [heq] at hcard
        exact hcard
      · rw [if_neg hmem]
        have hnd' : (acc ++ [(vn.lookup h).getD []]).Nodup := by
          rw [List.nodup_append]
          exact ⟨hnd, List.nodup_singleton _,
            fun a ha hb => hmem (by rwa [List.mem_singleton.mp hb] at ha)⟩
        apply ih _ hnd'
        · rw [List.length_append, List.length_singleton]
          omega
        · have heq : (acc ++ [(vn.lookup h).getD []]).toFinset ∪
              ((rest.map fun h => (vn.lookup h).getD []).toFinset)
              = acc.toFinset ∪
                (((h :: rest).map fun h => (vn.lookup h).getD []).toFinset) := by
            ext x
            simp only [List.toFinset_append, List.map_cons, List.toFinset_cons,
              Finset.mem_union, Finset.mem_insert, List.mem_toFinset,
              List.mem_singleton]
            tauto
          rw [heq]
          exact hcard

/-- Claim C5 (confirmed): on a ring built from a node set — pairwise
distinct node names, each still reachable in the virtual-point map, which is
the spec's ring invariant and holds absent total 64-bit FNV-1a collisions —
`LocateKey key k` with `k ≥ 1` terminates and returns exactly
`min(k, |nodes|)` pairwise-distinct physical nodes.  Determinism is
inherent: the embedding is a pure function of the ring, the key and `k`. -/
theorem locateKey_count_distinct (nodes : List (List Nat)) (key : List Nat) (k : Nat)
    (hk : 1 ≤ k) (hnodup : nodes.Nodup)
    (hcov : ∀ nd ∈ nodes, ∃ h ∈ (NewHashRing nodes).sortedHashes,
        (NewHashRing nodes).virtualNodes.lookup h = some nd) :
    ∃ l, LocateKey (NewHashRing nodes) key k = some l ∧
      l.length = min k nodes.length ∧ l.Nodup := by
  by_cases hemp : (NewHashRing nodes).sortedHashes = []
  · refine ⟨[], ?_, ?_, List.nodup_nil⟩
    · rw [LocateKey, if_pos hemp]
    · cases hnodes : nodes with
      | nil => simp
      | cons nd rest =>
        exfalso
        obtain ⟨h, hh, _⟩ := hcov nd (by rw [hnodes]; exact List.mem_cons_self _ _)
        rw [hemp] at hh
        exact absurd hh (List.not_mem_nil _)
  · rw [LocateKey, if_neg hemp]
    dsimp only
    rw [if_neg (show ¬k ≤ 0 by omega), newHashRing_nodes]
    set idx := (NewHashRing nodes).sortedHashes.findIdx
      (fun h => decide (fnv1a key ≤ h)) with hidx
    set rotated := (NewHashRing nodes).sortedHashes.drop idx ++
      (NewHashRing nodes).sortedHashes.take idx with hrot
    have hsub : nodes.toFinset ⊆
        (rotated.map fun h => ((NewHashRing nodes).virtualNodes.lookup h).getD []).toFinset := by
      intro x hx
      obtain ⟨h, hh, hlk⟩ := hcov x (List.mem_toFinset.mp hx)
      rw [List.mem_toFinset, List.mem_map]
      exact ⟨h, (mem_rotation _ idx h).mpr hh, by rw [hlk]; rfl⟩
    have hcard : min k nodes.length ≤ (((List.nil : List (List Nat)).toFinset) ∪
        (rotated.map fun h =>
          ((NewHashRing nodes).virtualNodes.lookup h).getD []).toFinset).card := by
      have h1 : nodes.length ≤ (rotated.map fun h =>
          ((NewHashRing nodes).virtualNodes.lookup h).getD []).toFinset.card := by
        have := Finset.card_le_card hsub
        rwa [List.card_toFinset, List.dedup_eq_self.mpr hnodup] at this
      simp only [List.toFinset_nil, Finset.empty_union]
      exact le_trans (min_le_right _ _) h1
    obtain ⟨hlen, hnd⟩ := collectNodes_spec (NewHashRing nodes).virtualNodes
      (min k nodes.length) rotated [] List.nodup_nil (by simp) hcard
    rw [if_pos hlen]
    exact ⟨_, rfl, hlen, hnd⟩

set_option maxRecDepth 40000 in
/-- Witness for C5 at a concrete input: the two-node ring over byte-string
names "a" and "b" locates, for the key "f" and fanout 3, exactly
min(3, 2) = 2 distinct nodes; the coverage hypothesis is checked by
evaluation. -/
theorem locateKey_count_distinct_witness :
    ∃ l, LocateKey (NewHashRing [[97], [98]]) [102] 3 = some l ∧
      l.length = min 3 2 ∧ l.Nodup :=
  locateKey_count_distinct [[97], [98]] [102] 3 (by decide) (by decide) (by decide)

end DHT
